import Mathlib

/-!
Verification of the firmware release bookkeeping engine of the `porter` CLI.

The development shallowly embeds the core of the repository:

* the version-identifier / packed-value encoding of
  `ReleaseCommand._updateFirmwareVersion` (`src/command/release.js`);
* the module-version counter bump `nextModuleVersion` (`src/command/release.js`);
* the line-oriented pattern editors, line store, and backup vault of
  `file-util.js` (`searchLastLine`, `replaceLastLine`, `replaceLine`,
  `insertAfterLastLine`, `readFileLines`/`writeFileLines`/`updateFileLines`,
  `backupCopy`, `restoreBackup`);
* the transactional `ReleaseCommand.init` orchestration.

JavaScript strings are modelled as Lean `String`s (file paths and contents are
ASCII in this system), JavaScript numbers used as counters are modelled as `Int`
(all values in play are far below 2^53, where JS number arithmetic is exact),
and regular-expression patterns are modelled at the granularity the claims
need: a pattern is represented by its literal-substring matcher, since a
non-global JS `String.replace`/`String.match` on such a pattern finds and
replaces the first occurrence, which is the behaviour under scrutiny.
-/

/-- Model of JavaScript `s.toUpperCase()` on the ASCII strings this system
handles: upper-case every character. -/
def upperAscii (s : String) : String :=
  String.mk (s.data.map Char.toUpper)

/-- A semver prerelease tag: the `semver` package yields a mix of numbers and
strings (e.g. `rc.2` becomes `["rc", 2]`). -/
inductive PreTag where
  | num (n : Nat)
  | str (s : String)
  deriving Repr, DecidableEq

/-- A parsed semantic version, as exposed by the `semver` package accessors
`major`, `minor`, `patch` and `prerelease` (empty list models `null`). -/
structure SemVer where
  major : Nat
  minor : Nat
  patch : Nat
  tags : List PreTag
  deriving Repr, DecidableEq

/-- Rendering of one prerelease tag inside a version string. -/
def PreTag.render : PreTag → String
  | .num n => toString n
  | .str s => s

/-- Rendering of a `SemVer` back to its version string, as the `semver`
package prints it (used by `init` to derive the release branch name). -/
def SemVer.render (v : SemVer) : String :=
  toString v.major ++ "." ++ toString v.minor ++ "." ++ toString v.patch ++
    (if v.tags.isEmpty then ""
     else "-" ++ String.intercalate "." (v.tags.map PreTag.render))

/-- Model of JavaScript `n.toString().padStart(2, '0')`: prepend zeros until
the decimal rendering is at least two characters (no truncation). -/
def pad2 (n : Nat) : String :=
  let s := toString n
  if s.length < 2 then "0" ++ s else s

/-- The prerelease-tag loop of `ReleaseCommand._updateFirmwareVersion`
(`release.js` lines 180-193): folds over the tags accumulating the symbolic
id and the prerelease ordinal.  A string tag is upper-cased and appended; a
numeric tag is appended in decimal and assigned to the ordinal accumulator
when that accumulator is still falsy (`if (!prerelease) prerelease = tag`). -/
def prereleaseFold : List PreTag → String → Nat → String × Nat
  | [], id, pre => (id, pre)
  | .str s :: ts, id, pre => prereleaseFold ts (id ++ upperAscii s) pre
  | .num n :: ts, id, pre =>
      prereleaseFold ts (id ++ toString n) (if pre = 0 then n else pre)

/-- The symbolic version id together with the prerelease ordinal, computed
exactly as in `ReleaseCommand._updateFirmwareVersion` (`release.js` lines
171-193): major, then minor and patch (bare when both are below 10, otherwise
each padded to two digits), then the prerelease tags. -/
def versionIdAndOrdinal (v : SemVer) : String × Nat :=
  let base :=
    toString v.major ++
      (if v.minor < 10 && v.patch < 10 then
        toString v.minor ++ toString v.patch
      else
        pad2 v.minor ++ pad2 v.patch)
  prereleaseFold v.tags base 0

/-- The symbolic version id, e.g. `070RC2` for `0.7.0-rc.2`. -/
def versionId (v : SemVer) : String :=
  (versionIdAndOrdinal v).1

/-- The prerelease ordinal retained by the tag loop. -/
def prereleaseOrdinal (v : SemVer) : Nat :=
  (versionIdAndOrdinal v).2

/-- The packed version value of `ReleaseCommand._updateFirmwareVersion`
(`release.js` lines 194-195): `'0x'` followed by major, minor, patch and the
prerelease ordinal, each passed through `padStart(2, '0')`. -/
def versionValue (v : SemVer) : String :=
  "0x" ++ pad2 v.major ++ pad2 v.minor ++ pad2 v.patch ++
    pad2 (prereleaseOrdinal v)

/-- Modelled from the spec: the claimed prerelease ordinal, namely the first
numeric prerelease tag, `0` when there is none (used to compare the spec's
wording with the code). -/
def specFirstNumericOrdinal : List PreTag → Nat
  | [] => 0
  | .num n :: _ => n
  | .str _ :: ts => specFirstNumericOrdinal ts

/-- Modelled from the spec (amended): the first non-zero numeric prerelease
tag, `0` when every numeric tag is zero or there is none. -/
def specOrdinal : List PreTag → Nat
  | [] => 0
  | .num n :: ts => if n = 0 then specOrdinal ts else n
  | .str _ :: ts => specOrdinal ts

/-- Modelled from the spec: the concatenation of the prerelease tags, string
tags upper-cased, numeric tags in decimal. -/
def specTagsStr : List PreTag → String
  | [] => ""
  | .num n :: ts => toString n ++ specTagsStr ts
  | .str s :: ts => upperAscii s ++ specTagsStr ts

/-- Modelled from the spec: the claimed symbolic identifier, major then
minor and patch (each padded to two digits if either exceeds 9, else bare),
then the rendered prerelease tags. -/
def specSymbolicId (v : SemVer) : String :=
  toString v.major ++
    (if v.minor ≤ 9 && v.patch ≤ 9 then
      toString v.minor ++ toString v.patch
    else
      pad2 v.minor ++ pad2 v.patch) ++
  specTagsStr v.tags

/-- Modelled from the spec (amended): the packed value built from the
components and the (amended) ordinal, each padded to at least two digits. -/
def specPackedValue (v : SemVer) : String :=
  "0x" ++ pad2 v.major ++ pad2 v.minor ++ pad2 v.patch ++
    pad2 (specOrdinal v.tags)

theorem prereleaseFold_eq (ts : List PreTag) :
    ∀ id pre, prereleaseFold ts id pre =
      (id ++ specTagsStr ts, if pre = 0 then specOrdinal ts else pre) := by
  induction ts with
  | nil =>
    intro id pre
    by_cases h : pre = 0 <;> simp [prereleaseFold, specTagsStr, specOrdinal, h]
  | cons t ts ih =>
    intro id pre
    cases t with
    | num n =>
      by_cases h : pre = 0
      · by_cases hn : n = 0 <;>
          simp [prereleaseFold, specTagsStr, specOrdinal, h, hn, ih,
            String.append_assoc]
      · simp [prereleaseFold, specTagsStr, specOrdinal, h, ih,
          String.append_assoc]
    | str s =>
      by_cases h : pre = 0 <;>
        simp [prereleaseFold, specTagsStr, specOrdinal, h, ih,
          String.append_assoc]

/-- C5 (amended): the symbolic identifier concatenates major, then minor and
patch (each padded to two digits if either exceeds 9, else bare), then the
prerelease tags (strings upper-cased, numbers in decimal); the prerelease
ordinal is the first non-zero numeric tag (0 if there is none); and the
packed value is `0x` followed by major, minor, patch and that ordinal, each
written in decimal padded to at least two digits. -/
theorem versionId_versionValue_spec (v : SemVer) :
    versionId v = specSymbolicId v ∧
    prereleaseOrdinal v = specOrdinal v.tags ∧
    versionValue v = specPackedValue v := by
  have hcond : (v.minor < 10 && v.patch < 10) = (v.minor ≤ 9 && v.patch ≤ 9) := by
    simp [Nat.lt_succ_iff]
  refine ⟨?_, ?_, ?_⟩
  · simp [versionId, versionIdAndOrdinal, prereleaseFold_eq, specSymbolicId,
      hcond]
  · simp [prereleaseOrdinal, versionIdAndOrdinal, prereleaseFold_eq]
  · simp [versionValue, specPackedValue, prereleaseOrdinal,
      versionIdAndOrdinal, prereleaseFold_eq]

/-- C5 counterexample: for `1.0.0-0.5` the code's prerelease ordinal is 5,
not the first numeric tag 0 (JavaScript `if (!prerelease)` treats an assigned
0 as still-unset); and for `100.0.0` the packed value is not four two-digit
fields (its length is 11, not 10), since `padStart(2, '0')` does not
truncate a three-digit major. -/
theorem versionValue_claim_counterexample :
    prereleaseOrdinal ⟨1, 0, 0, [PreTag.num 0, PreTag.num 5]⟩ = 5 ∧
    specFirstNumericOrdinal [PreTag.num 0, PreTag.num 5] = 0 ∧
    prereleaseOrdinal ⟨1, 0, 0, [PreTag.num 0, PreTag.num 5]⟩ ≠
      specFirstNumericOrdinal [PreTag.num 0, PreTag.num 5] ∧
    (versionValue ⟨100, 0, 0, []⟩).length ≠ 10 := by
  refine ⟨rfl, rfl, by decide, by decide⟩

/-- C4 counterexample: encoding `0.7.0-rc.2` yields the packed value
`0x00070002` (the major component 0 pads to `00`), so the claimed pair
(symbolic id `070RC2`, packed value `0x07000002`) is false. -/
theorem version070rc2_claim_counterexample :
    ¬ (versionId ⟨0, 7, 0, [PreTag.str "rc", PreTag.num 2]⟩ = "070RC2" ∧
       versionValue ⟨0, 7, 0, [PreTag.str "rc", PreTag.num 2]⟩ = "0x07000002") := by
  decide

/-- C4 (amended): encoding the version `0.7.0-rc.2` produces the symbolic
identifier `070RC2` and the packed value `0x00070002`. -/
theorem version070rc2_encoding :
    versionId ⟨0, 7, 0, [PreTag.str "rc", PreTag.num 2]⟩ = "070RC2" ∧
    versionValue ⟨0, 7, 0, [PreTag.str "rc", PreTag.num 2]⟩ = "0x00070002" := by
  decide

/-- The ASCII decimal digits, the digit set of JavaScript `parseInt` in base
10 (and of the regex class `\d`). -/
def isDigitCh (c : Char) : Bool :=
  c.isDigit

/-- The ASCII hexadecimal digits accepted by `parseInt` in base 16: the
decimal digits plus the letters `a`-`f` in either case. -/
def isHexDigitCh (c : Char) : Bool :=
  c.isDigit || (c.val ≥ 97 && c.val ≤ 102) || (c.val ≥ 65 && c.val ≤ 70)

/-- Numeric value of one ASCII digit (hex digits included). -/
def digitValCh (c : Char) : Nat :=
  if isDigitCh c then c.toNat - 48
  else if c.toNat ≥ 97 then c.toNat - 87
  else c.toNat - 55

/-- Value of a decimal digit string. -/
def digitsToNat (ds : List Char) : Nat :=
  ds.foldl (fun a c => a * 10 + digitValCh c) 0

/-- Value of a hexadecimal digit string. -/
def hexDigitsToNat (ds : List Char) : Nat :=
  ds.foldl (fun a c => a * 16 + digitValCh c) 0

/-- True when the input carries the `0x`/`0X` prefix that switches
JavaScript `Number.parseInt` (radix unspecified) to base 16. -/
def hexPrefixed : List Char → Bool
  | c1 :: c2 :: _ => c1 == '0' && (c2 == 'x' || c2 == 'X')
  | _ => false

/-- The digit-consuming phase of `Number.parseInt` after the optional sign:
with a `0x`/`0X` prefix the maximal run of hex digits is taken in base 16,
otherwise the maximal run of decimal digits in base 10; no digits means
`NaN`, modelled as `none`.  Trailing non-digit characters are ignored. -/
def jsParseIntBody (sign : Int) (cs : List Char) : Option Int :=
  if hexPrefixed cs then
    let ds := (cs.drop 2).takeWhile isHexDigitCh
    if ds.isEmpty then none else some (sign * (hexDigitsToNat ds : Int))
  else
    let ds := cs.takeWhile isDigitCh
    if ds.isEmpty then none else some (sign * (digitsToNat ds : Int))

/-- Model of JavaScript `Number.parseInt(s)` (radix unspecified): skip
leading whitespace, read an optional sign, then parse the digit prefix. -/
def jsParseIntChars (cs : List Char) : Option Int :=
  match cs.dropWhile Char.isWhitespace with
  | [] => none
  | c :: rest =>
    if c = '+' then jsParseIntBody 1 rest
    else if c = '-' then jsParseIntBody (-1) rest
    else jsParseIntBody 1 (c :: rest)

/-- `Number.parseInt` on a Lean string. -/
def jsParseInt (s : String) : Option Int :=
  jsParseIntChars s.data

/-- The increment unit chosen by `nextModuleVersion` (`release.js` lines
73-80): 10000 when the major component increased, 100 when the minor
component increased, otherwise 1. -/
def moduleVersionInc (nv cv : SemVer) : Int :=
  if nv.major > cv.major then 10000
  else if nv.minor > cv.minor then 100
  else 1

/-- The module counter bump of `nextModuleVersion` (`release.js` line 81) on
an already-numeric counter: `(Math.floor(moduleVer / inc) + 1) * inc`
(JavaScript `Math.floor` of an exact quotient is floor division). -/
def nextModuleVersion (nv cv : SemVer) (moduleVer : Int) : Int :=
  (Int.fdiv moduleVer (moduleVersionInc nv cv) + 1) * moduleVersionInc nv cv

/-- `nextModuleVersion` on a captured counter string (`release.js` lines
67-72): the string is put through `Number.parseInt`; `NaN` raises the
`Invalid module version` error, modelled as `none`. -/
def nextModuleVersionStr (nv cv : SemVer) (s : String) : Option Int :=
  (jsParseInt s).map (nextModuleVersion nv cv)

/-- Modelled from the spec: a counter string that is a valid integer
literal, i.e. an optional sign followed by one or more decimal digits. -/
def isIntegerLiteral (cs : List Char) : Bool :=
  match cs with
  | [] => false
  | c :: rest =>
    if c = '+' ∨ c = '-' then !rest.isEmpty && rest.all isDigitCh
    else (c :: rest).all isDigitCh

/-- Modelled from the spec: the integer denoted by a valid integer literal. -/
def integerValue (cs : List Char) : Int :=
  match cs with
  | [] => 0
  | c :: rest =>
    if c = '+' then (digitsToNat rest : Int)
    else if c = '-' then -(digitsToNat rest : Int)
    else (digitsToNat (c :: rest) : Int)

theorem isDigitCh_not_whitespace (c : Char) (h : isDigitCh c = true) :
    c.isWhitespace = false := by
  by_contra hw
  rw [Bool.not_eq_false] at hw
  simp only [Char.isWhitespace, Bool.or_eq_true, decide_eq_true_eq] at hw
  rcases hw with ((hc | hc) | hc) | hc <;> (subst hc; exact absurd h (by decide))

theorem hexPrefixed_digits (cs : List Char) (h : cs.all isDigitCh = true) :
    hexPrefixed cs = false := by
  match cs with
  | [] => rfl
  | [c] => rfl
  | c1 :: c2 :: rest =>
    have h2 : isDigitCh c2 = true := by
      simp only [List.all_cons, Bool.and_eq_true] at h
      exact h.2.1
    have hx : c2 ≠ 'x' := by
      intro he
      rw [he] at h2
      exact absurd h2 (by decide)
    have hX : c2 ≠ 'X' := by
      intro he
      rw [he] at h2
      exact absurd h2 (by decide)
    simp [hexPrefixed, hx, hX]

theorem jsParseIntBody_digits (sign : Int) (cs : List Char)
    (hne : cs ≠ []) (h : cs.all isDigitCh = true) :
    jsParseIntBody sign cs = some (sign * (digitsToNat cs : Int)) := by
  have hhex := hexPrefixed_digits cs h
  have htw : cs.takeWhile isDigitCh = cs :=
    List.takeWhile_eq_self_iff.mpr (by simpa [List.all_eq_true] using h)
  simp [jsParseIntBody, hhex, htw, List.isEmpty_iff, hne]

theorem jsParseIntChars_integerLiteral (cs : List Char)
    (h : isIntegerLiteral cs = true) :
    jsParseIntChars cs = some (integerValue cs) := by
  match cs with
  | [] => simp [isIntegerLiteral] at h
  | c :: rest =>
    by_cases hsign : c = '+' ∨ c = '-'
    · simp only [isIntegerLiteral, hsign, if_pos, Bool.and_eq_true,
        Bool.not_eq_true'] at h
      have hne : rest ≠ [] := by
        intro hr
        simp [hr] at h
      rcases hsign with hc | hc <;> subst hc
      · have hws : ('+' : Char).isWhitespace = false := by decide
        simp [jsParseIntChars, integerValue, List.dropWhile_cons, hws,
          jsParseIntBody_digits 1 rest hne h.2]
      · have hws : ('-' : Char).isWhitespace = false := by decide
        simp [jsParseIntChars, integerValue, List.dropWhile_cons, hws,
          jsParseIntBody_digits (-1) rest hne h.2]
    · simp only [isIntegerLiteral, hsign, if_neg, not_false_iff] at h
      have hc : isDigitCh c = true := by
        simp only [List.all_cons, Bool.and_eq_true] at h
        exact h.1
      have hws := isDigitCh_not_whitespace c hc
      have hplus : ¬ c = '+' := fun hq => hsign (Or.inl hq)
      have hminus : ¬ c = '-' := fun hq => hsign (Or.inr hq)
      have hne : (c :: rest) ≠ ([] : List Char) := by simp
      simp [jsParseIntChars, integerValue, List.dropWhile_cons, hws, hplus,
        hminus, jsParseIntBody_digits 1 (c :: rest) hne h]

theorem moduleVersionInc_pos (nv cv : SemVer) : 0 < moduleVersionInc nv cv := by
  unfold moduleVersionInc
  split
  · norm_num
  · split <;> norm_num

/-- C2: for every new version, current version and numeric counter, the bump
unit is 10000 on a major increase, 100 on a minor-only increase, else 1; the
result is `(floor(counter / unit) + 1) * unit`, which is the least multiple
of the unit strictly above the old counter; in particular counter 120 with
current `1.2.3` and new `1.3.0` yields 200. -/
theorem nextModuleVersion_spec (nv cv : SemVer) (c : Int) :
    (nv.major > cv.major → moduleVersionInc nv cv = 10000) ∧
    (¬ nv.major > cv.major → nv.minor > cv.minor →
      moduleVersionInc nv cv = 100) ∧
    (¬ nv.major > cv.major → ¬ nv.minor > cv.minor →
      moduleVersionInc nv cv = 1) ∧
    nextModuleVersion nv cv c =
      (Int.fdiv c (moduleVersionInc nv cv) + 1) * moduleVersionInc nv cv ∧
    c < nextModuleVersion nv cv c ∧
    moduleVersionInc nv cv ∣ nextModuleVersion nv cv c ∧
    (∀ m : Int, moduleVersionInc nv cv ∣ m → c < m →
      nextModuleVersion nv cv c ≤ m) ∧
    nextModuleVersionStr ⟨1, 3, 0, []⟩ ⟨1, 2, 3, []⟩ "120" = some 200 := by
  have hu : 0 < moduleVersionInc nv cv := moduleVersionInc_pos nv cv
  have hfd : Int.fdiv c (moduleVersionInc nv cv) = c / moduleVersionInc nv cv :=
    Int.fdiv_eq_ediv c hu.le
  refine ⟨fun h => by simp [moduleVersionInc, h],
    fun h1 h2 => by simp [moduleVersionInc, h1, h2],
    fun h1 h2 => by simp [moduleVersionInc, h1, h2],
    rfl, ?_, ?_, ?_, by decide⟩
  · unfold nextModuleVersion
    rw [hfd]
    exact Int.lt_ediv_add_one_mul_self c hu
  · exact dvd_mul_left _ _
  · intro m hdvd hlt
    obtain ⟨k, hk⟩ := hdvd
    have hcm : c < k * moduleVersionInc nv cv := by
      rw [hk, mul_comm] at hlt
      exact hlt
    have hdk : c / moduleVersionInc nv cv < k :=
      (Int.ediv_lt_iff_lt_mul hu).mpr hcm
    have hle : c / moduleVersionInc nv cv + 1 ≤ k := hdk
    calc nextModuleVersion nv cv c
        = (c / moduleVersionInc nv cv + 1) * moduleVersionInc nv cv := by
          unfold nextModuleVersion
          rw [hfd]
      _ ≤ k * moduleVersionInc nv cv :=
          mul_le_mul_of_nonneg_right hle hu.le
      _ = m := by rw [hk, mul_comm]

/-- C2 witness: at new version `2.0.0`, current `1.2.3`, counter 120, the
minimality clause instantiated at the multiple 20000. -/
theorem nextModuleVersion_spec_witness :
    (10000 : Int) ∣ 20000 ∧ (120 : Int) < 20000 ∧
    nextModuleVersion ⟨2, 0, 0, []⟩ ⟨1, 2, 3, []⟩ 120 ≤ 20000 := by
  have hinc : moduleVersionInc ⟨2, 0, 0, []⟩ ⟨1, 2, 3, []⟩ = 10000 := rfl
  have h :=
    (nextModuleVersion_spec ⟨2, 0, 0, []⟩ ⟨1, 2, 3, []⟩ 120).2.2.2.2.2.2.1
  refine ⟨⟨2, by norm_num⟩, by norm_num, h 20000 ?_ (by norm_num)⟩
  rw [hinc]
  exact ⟨2, by norm_num⟩

/-- C6 counterexample: the captured counter string `12abc` is not a valid
integer, yet the bump does not fail: `Number.parseInt` reads the leading
digits `12` and, with current `1.2.3` and new `1.3.0`, the bump returns 100. -/
theorem nextModuleVersionStr_claim_counterexample :
    isIntegerLiteral ("12abc".data) = false ∧
    nextModuleVersionStr ⟨1, 3, 0, []⟩ ⟨1, 2, 3, []⟩ "12abc" = some 100 := by
  decide

/-- C6 (amended): the module counter bump fails with the parse error exactly
when `Number.parseInt` can extract no leading integer from the captured
string; on every string that is a valid integer literal it succeeds and uses
the literal's integer value. -/
theorem nextModuleVersionStr_spec (nv cv : SemVer) (s : String) :
    (nextModuleVersionStr nv cv s = none ↔ jsParseInt s = none) ∧
    (isIntegerLiteral s.data = true →
      nextModuleVersionStr nv cv s =
        some (nextModuleVersion nv cv (integerValue s.data))) := by
  constructor
  · simp [nextModuleVersionStr]
  · intro h
    simp [nextModuleVersionStr, jsParseInt,
      jsParseIntChars_integerLiteral s.data h]

/-- C6 witness: the counter string `120` is a valid integer literal and the
bump succeeds on it. -/
theorem nextModuleVersionStr_spec_witness :
    isIntegerLiteral ("120".data) = true ∧
    nextModuleVersionStr ⟨1, 2, 4, []⟩ ⟨1, 2, 3, []⟩ "120" =
      some (nextModuleVersion ⟨1, 2, 4, []⟩ ⟨1, 2, 3, []⟩
        (integerValue "120".data)) :=
  ⟨by decide, (nextModuleVersionStr_spec ⟨1, 2, 4, []⟩ ⟨1, 2, 3, []⟩ "120").2
    (by decide)⟩

/-- Splits a character sequence around the first occurrence of a literal
pattern: `some (before, after)` when the pattern occurs, `none` otherwise.
This is the substring-pattern model of a JavaScript regex's first match. -/
def firstMatchSplit (pat : List Char) : List Char → Option (List Char × List Char)
  | [] => if pat.isEmpty then some ([], []) else none
  | c :: rest =>
    if pat.isPrefixOf (c :: rest) then some ([], (c :: rest).drop pat.length)
    else
      match firstMatchSplit pat rest with
      | some (pre, post) => some (c :: pre, post)
      | none => none

/-- Model of JavaScript `line.match(pattern)` being non-null for a literal
(non-global) pattern: the pattern occurs in the line. -/
def jsMatch (pat line : String) : Bool :=
  (firstMatchSplit pat.data line.data).isSome

/-- Model of JavaScript `line.replace(pattern, replacement)` for a literal
non-global pattern: replace the first occurrence only, return the line
unchanged when there is no match. -/
def jsReplaceFirst (pat rep line : String) : String :=
  match firstMatchSplit pat.data line.data with
  | some (pre, post) => String.mk (pre ++ rep.data ++ post)
  | none => line

/-- Modelled from the spec: replacement of every occurrence of the pattern
within one line (what a global regex would do); fuel-driven recursion on the
remainder after each match. -/
def replaceAllOccurrences (pat rep : List Char) : Nat → List Char → List Char
  | 0, cs => cs
  | fuel + 1, cs =>
    match firstMatchSplit pat cs with
    | none => cs
    | some (pre, post) => pre ++ rep ++ replaceAllOccurrences pat rep fuel post

/-- Modelled from the spec: every-occurrence replacement on one line. -/
def jsReplaceAllStr (pat rep line : String) : String :=
  String.mk (replaceAllOccurrences pat.data rep.data (line.data.length + 1)
    line.data)

/-- `searchLastLine` of `file-util.js` (lines 41-48): index of the last line
matching the pattern; the source's `-1` sentinel is modelled as `none`. -/
def searchLastLine (pat : String) : List String → Option Nat
  | [] => none
  | l :: rest =>
    match searchLastLine pat rest with
    | some k => some (k + 1)
    | none => if jsMatch pat l then some 0 else none

/-- `replaceLastLine` of `file-util.js` (lines 60-68): scan last-to-first,
replace (the first occurrence of the pattern) within the last matching line
only, and report whether a match was found. -/
def replaceLastLine (pat rep : String) : List String → List String × Bool
  | [] => ([], false)
  | l :: rest =>
    match replaceLastLine pat rep rest with
    | (rest', true) => (l :: rest', true)
    | (_, false) =>
      if jsMatch pat l then (jsReplaceFirst pat rep l :: rest, true)
      else (l :: rest, false)

/-- `replaceLine` of `file-util.js` (lines 70-79): for every line matching
the pattern, `lines[i] = lines[i].replace(regexp, replace)` (first occurrence
within the line, the call site passes no global flag); report whether any
line matched. -/
def replaceLine (pat rep : String) : List String → List String × Bool
  | [] => ([], false)
  | l :: rest =>
    let r := replaceLine pat rep rest
    if jsMatch pat l then (jsReplaceFirst pat rep l :: r.1, true)
    else (l :: r.1, r.2)

/-- `insertAfterLastLine` of `file-util.js` (lines 81-89): scan
last-to-first and splice the new line in directly after the last matching
line; report whether an insertion happened. -/
def insertAfterLastLine (pat newLine : String) : List String → List String × Bool
  | [] => ([], false)
  | l :: rest =>
    match insertAfterLastLine pat newLine rest with
    | (rest', true) => (l :: rest', true)
    | (_, false) =>
      if jsMatch pat l then (l :: newLine :: rest, true)
      else (l :: rest, false)

/-- C3 counterexample: on the single line `abab` with pattern `ab` and
replacement `X`, `replaceLine` produces `Xab` — only the first occurrence
within the line is replaced, not every occurrence (`XX`); and with pattern
`a`, replacement `a` on line `aa`, it returns `true` although no line
changed, so the returned flag reports a match, not a change. -/
theorem replaceLine_claim_counterexample :
    (replaceLine "ab" "X" ["abab"]).1 = ["Xab"] ∧
    jsReplaceAllStr "ab" "X" "abab" = "XX" ∧
    (replaceLine "ab" "X" ["abab"]).1 ≠ [jsReplaceAllStr "ab" "X" "abab"] ∧
    replaceLine "a" "a" ["aa"] = (["aa"], true) := by
  decide

/-- C3 (amended): for every pattern, replacement and line sequence,
`replaceLine` rewrites each matching line by replacing the first occurrence
of the pattern within it, leaves every non-matching line untouched, and
returns whether at least one line matched. -/
theorem replaceLine_spec (pat rep : String) (lines : List String) :
    replaceLine pat rep lines =
      (lines.map fun l => if jsMatch pat l then jsReplaceFirst pat rep l else l,
       lines.any (jsMatch pat)) := by
  induction lines with
  | nil => rfl
  | cons l rest ih =>
    by_cases h : jsMatch pat l <;> simp [replaceLine, ih, h]

theorem searchLastLine_none (pat : String) (lines : List String)
    (h : searchLastLine pat lines = none) :
    lines.all (fun l => !jsMatch pat l) = true := by
  induction lines with
  | nil => rfl
  | cons l rest ih =>
    simp only [searchLastLine] at h
    rcases hsr : searchLastLine pat rest with _ | k
    · rw [hsr] at h
      by_cases hm : jsMatch pat l
      · simp [hm] at h
      · simp [List.all_cons, hm, ih hsr]
    · rw [hsr] at h
      simp at h

theorem searchLastLine_some (pat : String) (lines : List String) (k : Nat)
    (h : searchLastLine pat lines = some k) :
    k < lines.length ∧ jsMatch pat (lines.getD k "") = true ∧
    (lines.drop (k + 1)).all (fun l => !jsMatch pat l) = true := by
  induction lines generalizing k with
  | nil => simp [searchLastLine] at h
  | cons l rest ih =>
    simp only [searchLastLine] at h
    rcases hsr : searchLastLine pat rest with _ | k'
    · rw [hsr] at h
      by_cases hm : jsMatch pat l
      · simp only [hm, if_pos] at h
        obtain rfl : k = 0 := by
          cases h
          rfl
        refine ⟨by simp, by simpa using hm, ?_⟩
        simpa using searchLastLine_none pat rest hsr
      · simp [hm] at h
    · rw [hsr] at h
      obtain rfl : k = k' + 1 := by
        cases h
        rfl
      obtain ⟨h1, h2, h3⟩ := ih k' hsr
      exact ⟨by simpa using h1, by simpa using h2, by simpa using h3⟩

theorem insertAfterLastLine_eq (pat nl : String) (lines : List String) :
    (searchLastLine pat lines = none →
      insertAfterLastLine pat nl lines = (lines, false)) ∧
    (∀ k, searchLastLine pat lines = some k →
      insertAfterLastLine pat nl lines =
        (lines.take (k + 1) ++ nl :: lines.drop (k + 1), true)) := by
  induction lines with
  | nil => exact ⟨fun _ => rfl, fun k hk => by simp [searchLastLine] at hk⟩
  | cons l rest ih =>
    rcases hsr : searchLastLine pat rest with _ | k'
    · have hrest := ih.1 hsr
      constructor
      · intro h
        simp only [searchLastLine, hsr] at h
        by_cases hm : jsMatch pat l
        · simp [hm] at h
        · simp [insertAfterLastLine, hrest, hm]
      · intro k hk
        simp only [searchLastLine, hsr] at hk
        by_cases hm : jsMatch pat l
        · simp only [hm, if_pos] at hk
          obtain rfl : k = 0 := by
            cases hk
            rfl
          simp [insertAfterLastLine, hrest, hm]
        · simp [hm] at hk
    · have hrest := ih.2 k' hsr
      constructor
      · intro h
        simp [searchLastLine, hsr] at h
      · intro k hk
        simp only [searchLastLine, hsr] at hk
        obtain rfl : k = k' + 1 := by
          cases hk
          rfl
        simp [insertAfterLastLine, hrest, List.take_succ_cons,
          List.drop_succ_cons]

/-- C7: if some line matches the pattern, `insertAfterLastLine` inserts the
new line directly after the last (highest-index) matching line — the result
is the original prefix up to and including that line, the new line, then the
untouched remainder — the length grows by exactly one and the insertion is
reported; if no line matches, the sequence is returned unchanged with a
negative report. -/
theorem insertAfterLastLine_spec (pat newLine : String) (lines : List String) :
    (lines.any (jsMatch pat) = false →
      insertAfterLastLine pat newLine lines = (lines, false)) ∧
    (lines.any (jsMatch pat) = true →
      ∃ k, searchLastLine pat lines = some k ∧ k < lines.length ∧
        jsMatch pat (lines.getD k "") = true ∧
        (lines.drop (k + 1)).all (fun l => !jsMatch pat l) = true ∧
        insertAfterLastLine pat newLine lines =
          (lines.take (k + 1) ++ newLine :: lines.drop (k + 1), true) ∧
        (insertAfterLastLine pat newLine lines).1.length
          = lines.length + 1) := by
  constructor
  · intro h
    rcases hs : searchLastLine pat lines with _ | k
    · exact (insertAfterLastLine_eq pat newLine lines).1 hs
    · obtain ⟨h1, h2, _⟩ := searchLastLine_some pat lines k hs
      have hmem : lines.getD k "" ∈ lines := by
        simp only [List.getD_eq_getElem?_getD, List.getElem?_eq_getElem h1,
          Option.getD_some]
        exact List.getElem_mem h1
      rw [List.any_eq_false] at h
      exact absurd h2 (h _ hmem)
  · intro h
    rcases hs : searchLastLine pat lines with _ | k
    · have := searchLastLine_none pat lines hs
      rw [List.all_eq_true] at this
      rw [List.any_eq_true] at h
      obtain ⟨l, hl, hm⟩ := h
      have := this l hl
      simp [hm] at this
    · obtain ⟨h1, h2, h3⟩ := searchLastLine_some pat lines k hs
      have heq := (insertAfterLastLine_eq pat newLine lines).2 k hs
      refine ⟨k, rfl, h1, h2, h3, heq, ?_⟩
      rw [heq]
      simp only [List.length_append, List.length_take, List.length_cons,
        List.length_drop]
      omega

/-- The line splitter of `readFileLines` (`file-util.js` lines 22-25):
`data.split(/\r?\n/)` on the character sequence — at each position a `\r\n`
pair or a bare `\n` ends the current line (the regex consumes the optional
`\r` greedily); a lone `\r` stays inside its line. -/
def splitList : List Char → List (List Char)
  | [] => [[]]
  | '\r' :: '\n' :: rest => [] :: splitList rest
  | '\n' :: rest => [] :: splitList rest
  | c :: rest =>
    match splitList rest with
    | [] => [[c]]
    | l :: ls => (c :: l) :: ls

/-- The line joiner of `writeFileLines` (`file-util.js` lines 27-30):
`lines.join('\n')` on character sequences. -/
def joinList : List (List Char) → List Char
  | [] => []
  | [l] => l
  | l :: m :: ls => l ++ '\n' :: joinList (m :: ls)

/-- Modelled from the spec (C10): rewrite every `\r\n` pair as a bare `\n`,
leaving all other characters (lone `\r` included) in place. -/
def normalizeCRLF : List Char → List Char
  | [] => []
  | '\r' :: '\n' :: rest => '\n' :: normalizeCRLF rest
  | c :: rest => c :: normalizeCRLF rest

/-- `readFileLines` on an in-memory file content. -/
def splitFileLines (s : String) : List String :=
  (splitList s.data).map String.mk

/-- `writeFileLines` serialization of a line sequence. -/
def joinFileLines (lines : List String) : String :=
  String.mk (joinList (lines.map String.data))

theorem splitList_ne_nil (cs : List Char) : splitList cs ≠ [] := by
  induction cs using splitList.induct with
  | case1 => simp [splitList]
  | case2 rest ih => simp [splitList]
  | case3 rest ih => simp [splitList]
  | case4 c rest h1 h2 hx => simp [splitList, hx]
  | case5 c rest h1 h2 l ls hx ih => simp [splitList, hx]

theorem joinList_cons_cons (c : Char) (l : List Char) (ls : List (List Char)) :
    joinList ((c :: l) :: ls) = c :: joinList (l :: ls) := by
  cases ls with
  | nil => rfl
  | cons m ls => rfl

theorem normalizeCRLF_cons (c : Char) (rest : List Char)
    (h : ∀ rest2, c = '\r' → rest = '\n' :: rest2 → False) :
    normalizeCRLF (c :: rest) = c :: normalizeCRLF rest := by
  rw [normalizeCRLF.eq_def]
  split
  · simp_all
  · rename_i heq
    injection heq with hc hr
    exact (h _ hc hr).elim
  · rename_i heq
    injection heq with hc hr
    rw [hc, hr]

theorem joinList_splitList (cs : List Char) :
    joinList (splitList cs) = normalizeCRLF cs := by
  induction cs using splitList.induct with
  | case1 => rfl
  | case2 rest ih =>
    obtain ⟨l, ls, hx⟩ : ∃ l ls, splitList rest = l :: ls := by
      rcases h : splitList rest with _ | ⟨l, ls⟩
      · exact absurd h (splitList_ne_nil rest)
      · exact ⟨l, ls, rfl⟩
    simp only [splitList, normalizeCRLF, hx, joinList]
    rw [← hx, ih]
    simp
  | case3 rest ih =>
    obtain ⟨l, ls, hx⟩ : ∃ l ls, splitList rest = l :: ls := by
      rcases h' : splitList rest with _ | ⟨l, ls⟩
      · exact absurd h' (splitList_ne_nil rest)
      · exact ⟨l, ls, rfl⟩
    simp only [splitList, normalizeCRLF, hx, joinList]
    rw [← hx, ih]
    simp
  | case4 c rest h1 h2 hx => exact absurd hx (splitList_ne_nil rest)
  | case5 c rest h1 h2 l ls hx ih =>
    have hsp : splitList (c :: rest) = (c :: l) :: ls := by
      simp [splitList, hx]
    rw [hsp, joinList_cons_cons, ← hx, ih, normalizeCRLF_cons c rest h1]

theorem normalizeCRLF_noCR (cs : List Char) (h : '\r' ∉ cs) :
    normalizeCRLF cs = cs := by
  induction cs using normalizeCRLF.induct with
  | case1 => rfl
  | case2 rest ih => exact absurd (by simp) h
  | case3 c rest hcond ih =>
    have hr : '\r' ∉ rest := by
      intro hm
      exact h (List.mem_cons_of_mem c hm)
    rw [normalizeCRLF_cons c rest hcond, ih hr]

/-- C10: loading a file into lines and saving them unmodified reproduces the
content exactly when it contains no carriage returns; in general the
round-trip rewrites every CRLF pair as a bare LF, so a CRLF file is
rewritten with normalized line endings even by a no-op transform. -/
theorem fileLines_roundtrip (s : String) :
    joinFileLines (splitFileLines s) = String.mk (normalizeCRLF s.data) ∧
    ('\r' ∉ s.data → joinFileLines (splitFileLines s) = s) := by
  have hcomp : (String.data ∘ String.mk) = fun l : List Char => l :=
    funext fun _ => rfl
  have hmain : joinFileLines (splitFileLines s) =
      String.mk (normalizeCRLF s.data) := by
    simp only [joinFileLines, splitFileLines, List.map_map, hcomp,
      List.map_id', joinList_splitList]
  refine ⟨hmain, fun h => ?_⟩
  rw [hmain, normalizeCRLF_noCR s.data h]

/-- C10 witness: the carriage-return-free content consisting of `a`, a line
feed and `b` survives the load/save round-trip unchanged. -/
theorem fileLines_roundtrip_witness :
    ('\r' ∉ ("a\nb").data) ∧
    joinFileLines (splitFileLines "a\nb") = "a\nb" :=
  ⟨by decide, (fileLines_roundtrip "a\nb").2 (by decide)⟩

/-- An in-memory file system: absolute-or-repo-relative canonical paths to
file contents. -/
abbrev FileSys := String → Option String

/-- Writing one file (creating or overwriting). -/
def setFile (p c : String) (fs : FileSys) : FileSys :=
  fun q => if q = p then some c else fs q

/-- The error taxonomy raised along the `init` path: the version-order
validation error, the detached-head/branch-exists conflict, the
`Invalid path prefix` error of `backupCopy`, a filesystem read failure, and
the `Unexpected file format` error of `_updateSourceFile`. -/
inductive PatchError where
  | validation
  | conflict
  | invalidPath
  | ioError (file : String)
  | formatMismatch (file : String)
  deriving Repr, DecidableEq

/-- An edit function over a line sequence: `some` is the (possibly mutated)
sequence with a truthy report, `none` a falsy `not applied` report. -/
abbrev EditFn := List String → Option (List String)

/-- `updateFileLines` of `file-util.js` (lines 32-39) with a throwing update
function: read the file (a missing file is a read error), run the update on
the line sequence, and on success write the resulting lines back joined with
newlines; a thrown error leaves the file untouched. -/
def updateFileLines (fs : FileSys) (file : String)
    (update : List String → Except PatchError (List String)) :
    FileSys × Option PatchError :=
  match fs file with
  | none => (fs, some (.ioError file))
  | some content =>
    match update (splitFileLines content) with
    | .error e => (fs, some e)
    | .ok lines => (setFile file (joinFileLines lines) fs, none)

/-- The read-edit-write step of `_updateSourceFile` (`release.js` lines
214-218): run the pattern edit in memory; a false report raises
`Unexpected file format`, otherwise the mutated line sequence is the one
written (the update lambda returns undefined, so `updateFileLines` falls
back to the in-place-mutated `lines`). -/
def updateSourceFile (fs : FileSys) (file : String) (edit : EditFn) :
    FileSys × Option PatchError :=
  updateFileLines fs file fun lines =>
    match edit lines with
    | none => .error (.formatMismatch file)
    | some lines2 => .ok lines2

/-- `backupCopy` of `file-util.js` (lines 98-107) on canonical absolute
paths (`path.resolve` is the identity on them): the source must start with
the resolved prefix root followed by the path separator, else the
`Invalid path prefix` error is thrown before anything is copied; otherwise
the content is copied to `path.join(dir, relativePath)` (`shell.mkdir -p`
plus `shell.cp -R`; a missing source makes the copy a silent no-op, shelljs
being non-fatal by default). -/
def backupCopy (fs : FileSys) (src dir pfxRoot : String) :
    FileSys × Option PatchError :=
  let pfx := pfxRoot ++ "/"
  if pfx.data.isPrefixOf src.data then
    let dest := dir ++ "/" ++ String.mk (src.data.drop pfx.data.length)
    match fs src with
    | some content => (setFile dest content fs, none)
    | none => (fs, none)
  else (fs, some .invalidPath)

/-- The backup directory content: snapshot path-content pairs in the order
they were taken. -/
abbrev Backups := List (String × String)

/-- The snapshot step of `_updateSourceFile` (`release.js` line 213): copy
the file's current content into the transaction's backup directory keyed by
its path.  Within `init` every source path is `path.join(rootPath, file)`,
so the containment check of `backupCopy` passes by construction; a missing
source file leaves the backup directory unchanged (`shell.cp` non-fatal). -/
def snapshotFile (fs : FileSys) (file : String) (bk : Backups) : Backups :=
  match fs file with
  | some content => bk ++ [(file, content)]
  | none => bk

/-- The patching loop of `_updateFirmwareVersion` (`release.js` lines
148-208): for each target file in order, snapshot it, then run its edit;
the first error aborts the loop. -/
def runPlan : List (String × EditFn) → FileSys → Backups →
    FileSys × Backups × Option PatchError
  | [], fs, bk => (fs, bk, none)
  | (file, edit) :: rest, fs, bk =>
    let bk2 := snapshotFile fs file bk
    match updateSourceFile fs file edit with
    | (fs2, none) => runPlan rest fs2 bk2
    | (fs2, some e) => (fs2, bk2, some e)

/-- `restoreBackup` of `file-util.js` (lines 109-115): copy every snapshot
back over the working tree (`shell.cp -R dir/* prefix`), overwriting the
files at the recorded paths. -/
def restoreBackup (bk : Backups) (fs : FileSys) : FileSys :=
  bk.foldl (fun f pc => setFile pc.1 pc.2 f) fs

/-- Pure sequential patching with no backups: the reference for what a fully
successful `init` does to the tree. -/
def applyPlan : List (String × EditFn) → FileSys → Option FileSys
  | [], fs => some fs
  | (file, edit) :: rest, fs =>
    match updateSourceFile fs file edit with
    | (fs2, none) => applyPlan rest fs2
    | (_, some _) => none

/-- Comparison of two prerelease tags, per semver precedence (numeric tags
compare numerically, numeric sorts before string, strings alphabetically);
this models the external `semver` package used by `release.js`. -/
def cmpTag : PreTag → PreTag → Ordering
  | .num a, .num b => compare a b
  | .num _, .str _ => .lt
  | .str _, .num _ => .gt
  | .str a, .str b => compare a b

/-- Lexicographic comparison of prerelease tag lists; a strict prefix sorts
first. -/
def cmpTags : List PreTag → List PreTag → Ordering
  | [], [] => .eq
  | [], _ :: _ => .lt
  | _ :: _, [] => .gt
  | a :: as, b :: bs =>
    match cmpTag a b with
    | .eq => cmpTags as bs
    | o => o

/-- `semver.compare`: major, minor, patch numerically, then prerelease (a
release sorts above any prerelease of the same triple). -/
def semverCompare (a b : SemVer) : Ordering :=
  match compare a.major b.major with
  | .eq =>
    match compare a.minor b.minor with
    | .eq =>
      match compare a.patch b.patch with
      | .eq =>
        match a.tags, b.tags with
        | [], [] => .eq
        | [], _ :: _ => .gt
        | _ :: _, [] => .lt
        | ta, tb => cmpTags ta tb
      | o => o
    | o => o
  | o => o

/-- The repository state `init` works on: the working tree, the current
branch, the set of local branches and the detached-head flag. -/
structure RepoState where
  files : FileSys
  curBranch : String
  branches : List String
  detached : Bool

/-- The release branch name `release/v${newVer}` (`release.js` line 130). -/
def branchName (v : SemVer) : String :=
  "release/v" ++ SemVer.render v

/-- `ReleaseCommand.init` (`release.js` lines 111-146) over the repository
state, with the versions already parsed (the claim presupposes valid
versions): validate the version order, refuse a detached head, check out the
new release branch (`git checkout -b` fails on an existing branch), allocate
a fresh backup directory and patch the target files; on any patching error,
restore every snapshot (`restoreBackup` swallows its own failures — the
`restoreFails` flag injects such a failure), check out the original branch,
delete the release branch and re-raise the original error.  The fixed file
list and edit closures of `_updateFirmwareVersion` enter as `steps`. -/
def initModel (restoreFails : Bool) (s : RepoState) (nv cv : SemVer)
    (steps : List (String × EditFn)) : RepoState × Option PatchError :=
  if semverCompare nv cv ≠ Ordering.gt then (s, some .validation)
  else if s.detached then (s, some .conflict)
  else if branchName nv ∈ s.branches then (s, some .conflict)
  else
    match runPlan steps s.files [] with
    | (fs2, _, none) =>
      ({ files := fs2, curBranch := branchName nv,
         branches := branchName nv :: s.branches, detached := s.detached },
       none)
    | (fs2, bk, some e) =>
      ({ files := if restoreFails then fs2 else restoreBackup bk fs2,
         curBranch := s.curBranch,
         branches := (branchName nv :: s.branches).erase (branchName nv),
         detached := s.detached }, some e)

/-- The three-step edit of `system/inc/system_version.h` (`release.js`
lines 196-206), patterns and generated lines abstracted: insert after the
last line matching the first pattern, replace within the last line matching
the second, insert after the last line matching the third; a false report
from any step makes the whole edit report false immediately. -/
def threeStepEdit (p1 l1 p2 rep p3 l3 : String) : EditFn := fun lines =>
  match insertAfterLastLine p1 l1 lines with
  | (_, false) => none
  | (lines1, true) =>
    match replaceLastLine p2 rep lines1 with
    | (_, false) => none
    | (lines2, true) =>
      match insertAfterLastLine p3 l3 lines2 with
      | (_, false) => none
      | (lines3, true) => some lines3

/-- The paths captured in a backup directory. -/
def bkKeys (bk : Backups) : List String :=
  bk.map Prod.fst

theorem setFile_apply_ne (p c q : String) (fs : FileSys) (h : q ≠ p) :
    setFile p c fs q = fs q := by
  simp [setFile, h]

theorem setFile_same (p c v : String) (fs : FileSys) :
    setFile p c (setFile p v fs) = setFile p c fs := by
  funext q
  by_cases h : q = p <;> simp [setFile, h]

theorem setFile_self (p c : String) (fs : FileSys) (h : fs p = some c) :
    setFile p c fs = fs := by
  funext q
  by_cases hq : q = p
  · rw [setFile, if_pos hq, hq, h]
  · rw [setFile, if_neg hq]

theorem setFile_comm (p q c d : String) (fs : FileSys) (h : p ≠ q) :
    setFile p c (setFile q d fs) = setFile q d (setFile p c fs) := by
  have h' : q ≠ p := fun he => h he.symm
  funext r
  by_cases h1 : r = p <;> by_cases h2 : r = q
  · exact absurd (h1.symm.trans h2) h
  · simp [setFile, h1, h2, h, h']
  · simp [setFile, h1, h2, h, h']
  · simp [setFile, h1, h2, h, h']

theorem restoreBackup_cons (qc : String × String) (bk : Backups)
    (fs : FileSys) :
    restoreBackup (qc :: bk) fs = restoreBackup bk (setFile qc.1 qc.2 fs) :=
  rfl

theorem restoreBackup_append (bk : Backups) (p c : String) (fs : FileSys) :
    restoreBackup (bk ++ [(p, c)]) fs = setFile p c (restoreBackup bk fs) := by
  unfold restoreBackup
  rw [List.foldl_append]
  rfl

theorem restoreBackup_apply_notMem (bk : Backups) (p : String) :
    ∀ (fs : FileSys), p ∉ bkKeys bk → restoreBackup bk fs p = fs p := by
  induction bk with
  | nil => intro fs h; rfl
  | cons qc bk ih =>
    intro fs h
    have h1 : p ∉ bkKeys bk := fun hm => h (List.mem_cons_of_mem _ hm)
    have h2 : p ≠ qc.1 := fun he => h (by simp [bkKeys, he])
    rw [restoreBackup_cons, ih _ h1, setFile_apply_ne _ _ _ _ h2]

theorem restoreBackup_setFile_comm (bk : Backups) (p c : String) :
    ∀ (fs : FileSys), p ∉ bkKeys bk →
      restoreBackup bk (setFile p c fs) = setFile p c (restoreBackup bk fs) := by
  induction bk with
  | nil => intro fs h; rfl
  | cons qc bk ih =>
    intro fs h
    have h1 : p ∉ bkKeys bk := fun hm => h (List.mem_cons_of_mem _ hm)
    have h2 : p ≠ qc.1 := fun he => h (by simp [bkKeys, he])
    rw [restoreBackup_cons, setFile_comm qc.1 p qc.2 c fs fun he => h2 he.symm,
      ih _ h1, restoreBackup_cons]

theorem updateSourceFile_error (fs : FileSys) (file : String) (edit : EditFn)
    {fs2 : FileSys} {e : PatchError}
    (h : updateSourceFile fs file edit = (fs2, some e)) : fs2 = fs := by
  rcases hf : fs file with _ | content
  · simp only [updateSourceFile, updateFileLines, hf, Prod.mk.injEq] at h
    exact h.1.symm
  · rcases he : edit (splitFileLines content) with _ | lines
    · simp only [updateSourceFile, updateFileLines, hf, he,
        Prod.mk.injEq] at h
      exact h.1.symm
    · simp only [updateSourceFile, updateFileLines, hf, he,
        Prod.mk.injEq] at h
      exact absurd h.2 (by simp)

theorem updateSourceFile_ok (fs : FileSys) (file : String) (edit : EditFn)
    {fs2 : FileSys} (h : updateSourceFile fs file edit = (fs2, none)) :
    ∃ content lines, fs file = some content ∧
      edit (splitFileLines content) = some lines ∧
      fs2 = setFile file (joinFileLines lines) fs := by
  rcases hf : fs file with _ | content
  · simp only [updateSourceFile, updateFileLines, hf, Prod.mk.injEq] at h
    exact absurd h.2 (by simp)
  · rcases he : edit (splitFileLines content) with _ | lines
    · simp only [updateSourceFile, updateFileLines, hf, he,
        Prod.mk.injEq] at h
      exact absurd h.2 (by simp)
    · simp only [updateSourceFile, updateFileLines, hf, he,
        Prod.mk.injEq] at h
      exact ⟨content, lines, rfl, he, h.1.symm⟩

theorem runPlan_ok_applyPlan (steps : List (String × EditFn)) :
    ∀ fs bk fs2 bk2, runPlan steps fs bk = (fs2, bk2, none) →
      applyPlan steps fs = some fs2 := by
  induction steps with
  | nil =>
    intro fs bk fs2 bk2 h
    obtain ⟨h1, h2, h3⟩ : fs = fs2 ∧ bk = bk2 ∧ (none : Option PatchError) = none := by
      simpa [runPlan, Prod.ext_iff] using h
    rw [applyPlan, h1]
  | cons step rest ih =>
    intro fs bk fs2 bk2 h
    obtain ⟨file, edit⟩ := step
    simp only [runPlan] at h
    rcases hu : updateSourceFile fs file edit with ⟨fsA, oe⟩
    cases oe with
    | none =>
      rw [hu] at h
      simp only [applyPlan, hu]
      exact ih _ _ _ _ h
    | some e0 =>
      rw [hu] at h
      simp [Prod.ext_iff] at h

theorem runPlan_error_restore (steps : List (String × EditFn)) :
    ∀ (fs : FileSys) (bk : Backups) (fs0 : FileSys),
      restoreBackup bk fs = fs0 →
      (steps.map Prod.fst).Nodup →
      (∀ f ∈ steps.map Prod.fst, f ∉ bkKeys bk) →
      ∀ fs2 bk2 e, runPlan steps fs bk = (fs2, bk2, some e) →
        restoreBackup bk2 fs2 = fs0 := by
  induction steps with
  | nil =>
    intro fs bk fs0 hinv hnd hdisj fs2 bk2 e h
    simp [runPlan, Prod.ext_iff] at h
  | cons step rest ih =>
    intro fs bk fs0 hinv hnd hdisj fs2 bk2 e h
    obtain ⟨file, edit⟩ := step
    have hfile_nin : file ∉ bkKeys bk := hdisj file (by simp)
    simp only [runPlan] at h
    rcases hu : updateSourceFile fs file edit with ⟨fsA, oe⟩
    cases oe with
    | some e0 =>
      rw [hu] at h
      have hfsA : fsA = fs := updateSourceFile_error fs file edit hu
      obtain ⟨h1, h2, h3⟩ : fsA = fs2 ∧ snapshotFile fs file bk = bk2 ∧
          (some e0 : Option PatchError) = some e := by
        simpa [Prod.ext_iff] using h
      rw [← h2, ← h1, hfsA]
      rcases hf : fs file with _ | c
      · simpa [snapshotFile, hf] using hinv
      · have hfs0file : fs0 file = some c := by
          rw [← hinv, restoreBackup_apply_notMem bk file fs hfile_nin, hf]
        rw [snapshotFile, hf, restoreBackup_append, hinv,
          setFile_self file c fs0 hfs0file]
    | none =>
      rw [hu] at h
      obtain ⟨content, lines, hf, he, hfsA⟩ := updateSourceFile_ok fs file edit hu
      have hfs0file : fs0 file = some content := by
        rw [← hinv, restoreBackup_apply_notMem bk file fs hfile_nin, hf]
      have hsnap : snapshotFile fs file bk = bk ++ [(file, content)] := by
        simp [snapshotFile, hf]
      have hinv2 : restoreBackup (bk ++ [(file, content)]) fsA = fs0 := by
        rw [hfsA, restoreBackup_append,
          restoreBackup_setFile_comm bk file _ fs hfile_nin, hinv,
          setFile_same, setFile_self file content fs0 hfs0file]
      have hndc : file ∉ rest.map Prod.fst ∧ (rest.map Prod.fst).Nodup := by
        rw [show ((file, edit) :: rest).map Prod.fst
            = file :: rest.map Prod.fst from rfl] at hnd
        exact List.nodup_cons.mp hnd
      have hdisj2 : ∀ f ∈ rest.map Prod.fst,
          f ∉ bkKeys (bk ++ [(file, content)]) := by
        intro f hfm
        have hne : f ≠ file := fun hq => hndc.1 (hq ▸ hfm)
        have hnb : f ∉ bkKeys bk := hdisj f (List.mem_cons_of_mem _ hfm)
        rw [show bkKeys (bk ++ [(file, content)]) = bkKeys bk ++ [file]
          from by simp [bkKeys]]
        intro hmem
        rcases List.mem_append.mp hmem with hl | hr
        · exact hnb hl
        · exact hne (List.mem_singleton.mp hr)
      rw [hsnap] at h
      exact ih fsA (bk ++ [(file, content)]) fs0 hinv2 hndc.2 hdisj2 fs2 bk2 e h

theorem string_eta (s : String) : String.mk s.data = s := by
  cases s
  rfl

/-- C8: snapshotting a source path that (in canonical absolute form) is not
a descendant of the repository root raises the invalid-path error and copies
no file; for a source path inside the root — the root, the separator, then a
relative path — the file's content is copied into the transaction root under
that relative path. -/
theorem backupCopy_spec (fs : FileSys) (src dir pfxRoot : String) :
    (¬ ((pfxRoot ++ "/").data.isPrefixOf src.data = true) →
      backupCopy fs src dir pfxRoot = (fs, some PatchError.invalidPath)) ∧
    (∀ rel content, src = pfxRoot ++ "/" ++ rel → fs src = some content →
      backupCopy fs src dir pfxRoot =
        (setFile (dir ++ "/" ++ rel) content fs, none)) := by
  constructor
  · intro h
    simp only [backupCopy]
    rw [if_neg h]
  · intro rel content hsrc hread
    subst hsrc
    have hpre : (pfxRoot ++ "/").data.isPrefixOf
        ((pfxRoot ++ "/") ++ rel).data = true := by
      rw [String.data_append]
      exact List.isPrefixOf_iff_prefix.mpr (List.prefix_append _ _)
    have hdrop : ((pfxRoot ++ "/") ++ rel).data.drop
        (pfxRoot ++ "/").data.length = rel.data := by
      rw [String.data_append]
      exact List.drop_left _ _
    simp only [backupCopy, hpre, if_true, hdrop, hread, string_eta]

/-- The working tree used by the C8 witness. -/
def backupSampleFs : FileSys :=
  fun p => if p = "/repo/build/version.mk" then some "VERSION = 1" else none

/-- C8 witness: `/etc/passwd` is outside the root `/repo`, so its snapshot
fails and copies nothing, while `/repo/build/version.mk` is snapshotted to
`/tmp/bk/build/version.mk`. -/
theorem backupCopy_spec_witness :
    (¬ (("/repo" ++ "/").data.isPrefixOf ("/etc/passwd" : String).data = true)) ∧
    backupCopy backupSampleFs "/etc/passwd" "/tmp/bk" "/repo" =
      (backupSampleFs, some PatchError.invalidPath) ∧
    ("/repo/build/version.mk" : String) = "/repo" ++ "/" ++ "build/version.mk" ∧
    backupSampleFs "/repo/build/version.mk" = some "VERSION = 1" ∧
    backupCopy backupSampleFs "/repo/build/version.mk" "/tmp/bk" "/repo" =
      (setFile ("/tmp/bk" ++ "/" ++ "build/version.mk") "VERSION = 1"
        backupSampleFs, none) := by
  refine ⟨by decide, ?_, by decide, by decide, ?_⟩
  · exact (backupCopy_spec backupSampleFs "/etc/passwd" "/tmp/bk" "/repo").1
      (by decide)
  · exact (backupCopy_spec backupSampleFs "/repo/build/version.mk" "/tmp/bk"
      "/repo").2 "build/version.mk" "VERSION = 1" (by decide) (by decide)

/-- C9: within one file's multi-step edit (the header file's three steps),
the composite edit fails exactly when some step reports no match; in that
case the file system is returned with the file byte-for-byte untouched (the
steps only mutated the in-memory line sequence), and only when all three
steps succeed does the single write happen, with the fully edited lines. -/
theorem updateSourceFile_threeStep (fs : FileSys) (file content : String)
    (p1 l1 p2 rep p3 l3 : String) (lines1 lines2 lines3 : List String)
    (b1 b2 b3 : Bool)
    (hread : fs file = some content)
    (h1 : insertAfterLastLine p1 l1 (splitFileLines content) = (lines1, b1))
    (h2 : replaceLastLine p2 rep lines1 = (lines2, b2))
    (h3 : insertAfterLastLine p3 l3 lines2 = (lines3, b3)) :
    (threeStepEdit p1 l1 p2 rep p3 l3 (splitFileLines content) = none ↔
      (b1 = false ∨ b2 = false ∨ b3 = false)) ∧
    ((b1 = false ∨ b2 = false ∨ b3 = false) →
      updateSourceFile fs file (threeStepEdit p1 l1 p2 rep p3 l3) =
        (fs, some (PatchError.formatMismatch file))) ∧
    ((b1 = true ∧ b2 = true ∧ b3 = true) →
      updateSourceFile fs file (threeStepEdit p1 l1 p2 rep p3 l3) =
        (setFile file (joinFileLines lines3) fs, none)) := by
  have hedit : threeStepEdit p1 l1 p2 rep p3 l3 (splitFileLines content) =
      if b1 = false ∨ b2 = false ∨ b3 = false then none else some lines3 := by
    cases b1 <;> cases b2 <;> cases b3 <;> simp [threeStepEdit, h1, h2, h3]
  refine ⟨?_, ?_, ?_⟩
  · rw [hedit]
    by_cases hb : b1 = false ∨ b2 = false ∨ b3 = false <;> simp [hb]
  · intro hb
    simp [updateSourceFile, updateFileLines, hread, hedit, hb]
  · intro hb
    have hbn : ¬ (b1 = false ∨ b2 = false ∨ b3 = false) := by
      simp [hb.1, hb.2.1, hb.2.2]
    simp [updateSourceFile, updateFileLines, hread, hedit, hbn]

/-- The working tree used by the C9 witness. -/
def headerSampleFs : FileSys :=
  fun p => if p = "sys.h" then some "A\nB" else none

/-- C9 witness: a three-step edit on `sys.h` whose first step succeeds (and
mutates the in-memory lines) but whose second step finds no match leaves the
file system entirely unchanged and reports the format error. -/
theorem updateSourceFile_threeStep_witness :
    headerSampleFs "sys.h" = some "A\nB" ∧
    insertAfterLastLine "A" "N1" (splitFileLines "A\nB") =
      (["A", "N1", "B"], true) ∧
    replaceLastLine "Z" "R" ["A", "N1", "B"] = (["A", "N1", "B"], false) ∧
    insertAfterLastLine "Q" "N2" ["A", "N1", "B"] =
      (["A", "N1", "B"], false) ∧
    updateSourceFile headerSampleFs "sys.h"
      (threeStepEdit "A" "N1" "Z" "R" "Q" "N2") =
      (headerSampleFs, some (PatchError.formatMismatch "sys.h")) := by
  refine ⟨by decide, by decide, by decide, by decide, ?_⟩
  exact (updateSourceFile_threeStep headerSampleFs "sys.h" "A\nB" "A" "N1"
    "Z" "R" "Q" "N2" ["A", "N1", "B"] ["A", "N1", "B"] ["A", "N1", "B"]
    true false false (by decide) (by decide) (by decide) (by decide)).2.1
    (Or.inr (Or.inl rfl))

/-- C1: under the claim's preconditions (valid strictly larger new version,
non-detached head, fresh release branch name, distinct target files), `init`
surfaces exactly the patching phase's error: on success the release branch
is checked out and the tree equals the result of sequentially applying every
edit; on any patching failure, the original branch is restored, the release
branch is deleted, and — when the restoration copy itself does not fail —
every file is byte-for-byte back at its pre-call content; the surfaced error
is the original one regardless of whether restoration fails, since
`restoreBackup` swallows its own errors. -/
theorem init_transactional (rf : Bool) (s : RepoState) (nv cv : SemVer)
    (steps : List (String × EditFn))
    (hver : semverCompare nv cv = Ordering.gt)
    (hdet : s.detached = false)
    (hbr : branchName nv ∉ s.branches)
    (hnd : (steps.map Prod.fst).Nodup) :
    (initModel rf s nv cv steps).2 = (runPlan steps s.files []).2.2 ∧
    ((initModel rf s nv cv steps).2 = none →
      (initModel rf s nv cv steps).1.curBranch = branchName nv ∧
      branchName nv ∈ (initModel rf s nv cv steps).1.branches ∧
      applyPlan steps s.files = some (initModel rf s nv cv steps).1.files) ∧
    ((initModel rf s nv cv steps).2.isSome = true →
      (initModel rf s nv cv steps).1.curBranch = s.curBranch ∧
      (initModel rf s nv cv steps).1.branches = s.branches ∧
      (initModel rf s nv cv steps).1.detached = s.detached ∧
      (rf = false → (initModel rf s nv cv steps).1.files = s.files)) ∧
    (initModel rf s nv cv steps).2 = (initModel false s nv cv steps).2 := by
  have hc1 : ¬ (semverCompare nv cv ≠ Ordering.gt) := by simp [hver]
  have hc2 : ¬ (s.detached = true) := by simp [hdet]
  simp only [initModel, if_neg hc1, if_neg hc2, if_neg hbr]
  rcases hrp : runPlan steps s.files [] with ⟨fs2, bk2, oe⟩
  cases oe with
  | none =>
    refine ⟨rfl, fun _ => ⟨rfl, List.mem_cons_self _ _, ?_⟩,
      fun hcontra => absurd hcontra (by simp), rfl⟩
    exact runPlan_ok_applyPlan steps s.files [] fs2 bk2 hrp
  | some e =>
    refine ⟨rfl, fun hcontra => absurd hcontra (by simp),
      fun _ => ⟨rfl, List.erase_cons_head _ _, rfl, fun hrf => ?_⟩, rfl⟩
    subst hrf
    exact runPlan_error_restore steps s.files [] s.files rfl hnd
      (fun f _ => by simp [bkKeys]) fs2 bk2 e hrp

/-- The working tree used by the C1 witness. -/
def initSampleFs : FileSys :=
  fun p => if p = "f.txt" then some "hello" else none

/-- The repository state used by the C1 witness. -/
def initSampleState : RepoState :=
  { files := initSampleFs, curBranch := "main", branches := ["main"],
    detached := false }

/-- The failing one-step edit plan used by the C1 witness. -/
def initSampleSteps : List (String × EditFn) :=
  [("f.txt", fun _ => none)]

/-- C1 witness: releasing `1.0.1` over `1.0.0` with a plan whose single edit
reports no match fails, and afterwards the tree, current branch and branch
list are all back to their pre-call state. -/
theorem init_transactional_witness :
    (initModel false initSampleState ⟨1, 0, 1, []⟩ ⟨1, 0, 0, []⟩
      initSampleSteps).2.isSome = true ∧
    (initModel false initSampleState ⟨1, 0, 1, []⟩ ⟨1, 0, 0, []⟩
      initSampleSteps).1.curBranch = initSampleState.curBranch ∧
    (initModel false initSampleState ⟨1, 0, 1, []⟩ ⟨1, 0, 0, []⟩
      initSampleSteps).1.branches = initSampleState.branches ∧
    (initModel false initSampleState ⟨1, 0, 1, []⟩ ⟨1, 0, 0, []⟩
      initSampleSteps).1.files = initSampleState.files := by
  have h := init_transactional false initSampleState ⟨1, 0, 1, []⟩
    ⟨1, 0, 0, []⟩ initSampleSteps (by decide) rfl (by decide) (by decide)
  have hsome : (initModel false initSampleState ⟨1, 0, 1, []⟩ ⟨1, 0, 0, []⟩
      initSampleSteps).2.isSome = true := by decide
  obtain ⟨-, -, h3, -⟩ := h
  obtain ⟨hcb, hbrs, -, hfiles⟩ := h3 hsome
  exact ⟨hsome, hcb, hbrs, hfiles rfl⟩

/-- C7 witness: on the lines `a`, `b` with pattern `a` (which matches the
first line only), the new line `X` is inserted right after it. -/
theorem insertAfterLastLine_spec_witness :
    (["a", "b"].any (jsMatch "a") = true) ∧
    insertAfterLastLine "a" "X" ["a", "b"] = (["a", "X", "b"], true) := by
  refine ⟨by decide, ?_⟩
  obtain ⟨k, hk, _, _, _, hres, _⟩ :=
    (insertAfterLastLine_spec "a" "X" ["a", "b"]).2 (by decide)
  have hk0 : searchLastLine "a" ["a", "b"] = some 0 := by decide
  obtain rfl : k = 0 := by
    rw [hk0] at hk
    cases hk
    rfl
  simpa using hres
